import Mathlib

/-!
Verification of the streaming XML serializer of planet-dump-ng
(`src/xml_writer.cpp`) against its natural-language specification.

The C++ source is shallowly embedded below: strings are byte lists,
`boost::posix_time::ptime` is a component record with a `not_a_date_time`
special value, the libxml emission surface is a list of events, and each
serializer pass is a structurally recursive function threading its
merge-join cursors exactly as the C++ iterators are threaded.
-/

namespace PlanetDump

/-- A `std::string` is modelled as its list of bytes (each `< 256`). -/
abbrev Bytes := List Nat

/-- The bytes of an ASCII Lean string literal, used to state concrete
expected outputs. -/
def strBytes (s : String) : Bytes := s.data.map Char.toNat

/-- Reinterpretation of a byte as the C `char` value on the target platform
(signed 8-bit, as on x86-64 Linux where this program runs). -/
def signedChar (b : Nat) : Int := if b < 128 then (b : Int) else (b : Int) - 256

/-- Function `replace_xml_bad_chars` (xml_writer.cpp lines 41-56): byte-for-byte copy
of the input, replacing `c` with `'?'` whenever
`(c >= 0x00) && (c < 0x20) && (c != 0x09) && (c != 0x0a) && (c != 0x0d)`
holds for the signed `char` value `c`. -/
def replace_xml_bad_chars (s : Bytes) : Bytes :=
  s.map (fun b =>
    if 0 ≤ signedChar b ∧ signedChar b < 0x20 ∧
       signedChar b ≠ 0x09 ∧ signedChar b ≠ 0x0a ∧ signedChar b ≠ 0x0d
    then 63 else b)

/-- Type `boost::posix_time::ptime`, restricted to the two shapes the program
uses: a plain second-resolution UTC time, or the default-constructed
`not_a_date_time` special value (what an unset/null timestamp reads as;
`fmt_iso_time` tests exactly `is_special()` for it). -/
inductive PTime where
  | notADateTime : PTime
  | mk (year month day hour minute second : Nat) : PTime
deriving DecidableEq, Repr

/-- The boost comparison `a < b` on `ptime`.  For two ordinary times this is
chronological (lexicographic on the components); whenever either side is
`not_a_date_time` the comparison is `false`: boost's `int_adapter`
`compare` returns a distinguished "nan" result for a special operand and
`operator<` maps it to `false`. -/
def PTime.lt : PTime → PTime → Bool
  | .mk y1 mo1 d1 h1 mi1 s1, .mk y2 mo2 d2 h2 mi2 s2 =>
    decide (y1 < y2 ∨ (y1 = y2 ∧ (mo1 < mo2 ∨ (mo1 = mo2 ∧
      (d1 < d2 ∨ (d1 = d2 ∧ (h1 < h2 ∨ (h1 = h2 ∧
      (mi1 < mi2 ∨ (mi1 = mi2 ∧ s1 < s2))))))))))
  | _, _ => false

/-- Function `fmt_iso_time` (xml_writer.cpp lines 86-123).  For a special time the
function returns the empty string.  Otherwise it resizes the string to 21,
fills positions 0..19 with `YYYY-mm-ddTHH:MM:SSZ` computed arithmetically
from the components, and stores `'\0'` at position 20 — so the returned
`std::string` has *21* bytes, the last one NUL. -/
def fmt_iso_time : PTime → Bytes
  | .notADateTime => []
  | .mk y mo d h mi s =>
    [48 + (y / 1000) % 10, 48 + (y / 100) % 10, 48 + (y / 10) % 10, 48 + y % 10,
     45,
     if mo ≥ 10 then 49 else 48, 48 + mo % 10,
     45,
     48 + (d / 10) % 10, 48 + d % 10,
     84,
     48 + (h / 10) % 10, 48 + h % 10,
     58,
     48 + (mi / 10) % 10, 48 + mi % 10,
     58,
     48 + (s / 10) % 10, 48 + s % 10,
     90, 0]

/-- Reading a `std::string` through `.c_str()`, as every attribute/text
write does: the C string ends at the first NUL byte. -/
def cString (b : Bytes) : Bytes := b.takeWhile (· ≠ 0)

/-- Decimal digits of a natural number (most significant first), with
explicit fuel so that the definition is structurally recursive and
kernel-reducible.  `natDecAux (n+1) n` always has enough fuel. -/
def natDecAux : Nat → Nat → List Nat
  | 0, _ => []
  | f + 1, n => if n < 10 then [48 + n] else natDecAux f (n / 10) ++ [48 + n % 10]

/-- Decimal rendering of a natural number, e.g. `natDec 105 = strBytes "105"`. -/
def natDec (n : Nat) : List Nat := natDecAux (n + 1) n

/-- The printf-style decimal rendering of a (signed) integer, as produced by
the `%d`/`%ld` attribute writers. -/
def decBytes (i : Int) : Bytes :=
  if i < 0 then 45 :: natDec (-i).toNat else natDec i.toNat

/-- An exact (not necessarily reduced) fraction `num / den` with a positive
denominator, used to model `double` values and their exact decimal
conversions.  All operations below are kernel-computable, unlike `ℚ`
arithmetic (whose normalisation is not reducible by `decide`). -/
structure Frac where
  num : Int
  den : Nat
deriving DecidableEq, Repr

/-- Floor-of-log2 with explicit fuel (`log2Aux n n` is exact for `n ≥ 1`). -/
def log2Aux : Nat → Nat → Nat
  | 0, _ => 0
  | f + 1, n => if n ≤ 1 then 0 else log2Aux f (n / 2) + 1

/-- Floor of `log2 n` for `n ≥ 1`. -/
def natLog2 (n : Nat) : Nat := log2Aux n n

/-- Power `2 ^ e` as an exact fraction, for an integer exponent. -/
def pow2 (e : Int) : Frac :=
  if 0 ≤ e then ⟨(2 ^ e.toNat : Nat), 1⟩ else ⟨1, 2 ^ (-e).toNat⟩

/-- Value comparison of exact fractions (cross multiplication; sound
because denominators are positive). -/
def Frac.ltF (a b : Frac) : Bool := decide (a.num * (b.den : Int) < b.num * (a.den : Int))

/-- Exact quotient of two fractions, the divisor being positive. -/
def Frac.divF (a b : Frac) : Frac := ⟨a.num * (b.den : Int), a.den * b.num.toNat⟩

/-- Round an exact fraction to the nearest integer, ties to even — the
rounding used both by IEEE-754 binary64 arithmetic (default mode) and by
glibc's correctly rounded `printf` conversions.  `Int.ediv` is floor
division for a positive divisor. -/
def roundHalfEven (a : Frac) : Int :=
  let f := Int.ediv a.num (a.den : Int)
  let r2 : Int := 2 * (a.num - f * (a.den : Int))
  if r2 < (a.den : Int) then f
  else if (a.den : Int) < r2 then f + 1
  else if f % 2 = 0 then f else f + 1

/-- Binary exponent of a positive fraction: the `e` with
`2^(e-1) ≤ a < 2^e`, computed from the bit lengths of numerator and
denominator. -/
def binExpF (a : Frac) : Int :=
  let e0 : Int := (natLog2 a.num.toNat : Int) - (natLog2 a.den : Int)
  if a.ltF (pow2 e0) then e0 else e0 + 1

/-- The IEEE-754 binary64 value nearest to an exact fraction (round to
nearest, ties to even): the magnitude is rounded to 53 significant bits.
Subnormals and overflow are outside the range this program produces
(coordinates are at most a few hundred) and are not modelled. -/
def roundDouble (q : Frac) : Frac :=
  if q.num = 0 then ⟨0, 1⟩
  else
    let p : Frac := ⟨(q.num.natAbs : Int), q.den⟩
    let e := binExpF p
    let ulp := pow2 (e - 53)
    let m := roundHalfEven (p.divF ulp)
    ⟨(if q.num < 0 then -1 else 1) * m * ulp.num, ulp.den⟩

/-- The `double` computed by `double(scaled) / SCALE` in the serializer:
the integer is converted to binary64 and divided by `10000000` with IEEE
round-to-nearest; both steps are correctly rounded. -/
def coordDouble (x : Int) : Frac :=
  roundDouble ((roundDouble ⟨x, 1⟩).divF ⟨10000000, 1⟩)

/-- The 7-digit zero-padded fractional part used by `%.7f`, for `n < 10^7`. -/
def pad7 (n : Nat) : List Nat := List.replicate (7 - (natDec n).length) 48 ++ natDec n

/-- glibc `printf("%.7f", d)` on the exact value of a binary64 `d`:
correctly rounded to 7 decimal places (ties to even), rendered with a
leading `-` for negative `d`, an unpadded integer part and exactly seven
fractional digits. -/
def fmt7 (q : Frac) : Bytes :=
  let m := (roundHalfEven ⟨(q.num.natAbs : Int) * 10000000, q.den⟩).toNat
  (if q.num < 0 then [45] else []) ++ natDec (m / 10000000) ++ [46] ++ pad7 (m % 10000000)

/-- Function `format_coordinate` of the specification: what the serializer emits for
a fixed-point scaled integer coordinate — `double(x) / SCALE` printed with
`%.7f` (xml_writer.cpp lines 276-282, 541-544). -/
def format_coordinate (x : Int) : Bytes := fmt7 (coordDouble x)

/-! ## Emission surface

The libxml writer is modelled as the sequence of events it receives.
Attribute values are stored already formatted, exactly as each
`xml_writer::pimpl::attribute` overload formats them. -/

/-- One call to the underlying XML writer. -/
inductive XmlEvent where
  | beginEl (name : String)
  | attrE (name : String) (value : Bytes)
  | textE (value : Bytes)
  | endEl
deriving DecidableEq, Repr

/-- Overload `attribute(name, bool)`: literal `true` / `false`. -/
def attrBool (name : String) (b : Bool) : XmlEvent :=
  .attrE name (strBytes (if b then "true" else "false"))

/-- Overload `attribute(name, int32_t/int64_t)`: `%d` / `%ld` decimal. -/
def attrInt (name : String) (i : Int) : XmlEvent := .attrE name (decBytes i)

/-- Overload `attribute(name, const ptime&)`: `fmt_iso_time` then `.c_str()`. -/
def attrTime (name : String) (t : PTime) : XmlEvent :=
  .attrE name (cString (fmt_iso_time t))

/-- Overload `attribute(name, const std::string& / const char*)`:
`replace_xml_bad_chars` then `.c_str()`. -/
def attrStr (name : String) (s : Bytes) : XmlEvent :=
  .attrE name (cString (replace_xml_bad_chars s))

/-- Overload `attribute(name, double)`: `%.7f`. -/
def attrDouble (name : String) (q : Frac) : XmlEvent := .attrE name (fmt7 q)

/-- Method `pimpl::text`: `replace_xml_bad_chars` then `.c_str()`. -/
def textEv (s : Bytes) : XmlEvent := .textE (cString (replace_xml_bad_chars s))

/-! ## Data model

Record shapes follow the fields `xml_writer.cpp` reads off each row type
(their declarations live in the repository's `types.hpp`, outside the
provided source; the field lists here are exactly those the serializer
uses, with integer fields kept as unbounded `Int`). -/

/-- Enum `user_info_level` — the redaction policy. -/
inductive user_info_level where
  | SUMMARY : user_info_level
  | FULL : user_info_level
deriving DecidableEq, Repr

/-- Enum `historical_versions` — the history mode. -/
inductive historical_versions where
  | CURRENT : historical_versions
  | FULL : historical_versions
deriving DecidableEq, Repr

/-- Enum `changeset_discussions` — whether discussions are emitted. -/
inductive changeset_discussions where
  | NONE : changeset_discussions
  | FULL : changeset_discussions
deriving DecidableEq, Repr

/-- Member kind of a relation member (`nwr_node` / `nwr_way` / `nwr_relation`). -/
inductive nwr_kind where
  | nwr_node : nwr_kind
  | nwr_way : nwr_kind
  | nwr_relation : nwr_kind
deriving DecidableEq, Repr

/-- An unversioned (changeset) tag row. -/
structure current_tag where
  element_id : Int
  key : Bytes
  value : Bytes
deriving DecidableEq, Repr

/-- A versioned (node/way/relation) tag row. -/
structure old_tag where
  element_id : Int
  version : Int
  key : Bytes
  value : Bytes
deriving DecidableEq, Repr

/-- A changeset discussion comment row. -/
structure changeset_comment where
  changeset_id : Int
  author_id : Int
  created_at : PTime
  body : Bytes
  visible : Bool
deriving DecidableEq, Repr

/-- A changeset row.  `closed_at` is a plain `ptime` (an unset one reads as
`not_a_date_time`); the four bounding-box fields are `boost::optional`
scaled integers. -/
structure changeset where
  id : Int
  created_at : PTime
  closed_at : PTime
  uid : Int
  min_lat : Option Int
  max_lat : Option Int
  min_lon : Option Int
  max_lon : Option Int
  num_changes : Int
deriving DecidableEq, Repr

/-- A node row. -/
structure node where
  id : Int
  version : Int
  visible : Bool
  timestamp : PTime
  changeset_id : Int
  latitude : Int
  longitude : Int
deriving DecidableEq, Repr

/-- A way row. -/
structure way where
  id : Int
  version : Int
  visible : Bool
  timestamp : PTime
  changeset_id : Int
deriving DecidableEq, Repr

/-- A relation row. -/
structure relation where
  id : Int
  version : Int
  visible : Bool
  timestamp : PTime
  changeset_id : Int
deriving DecidableEq, Repr

/-- A way-node membership row. -/
structure way_node where
  way_id : Int
  version : Int
  node_id : Int
deriving DecidableEq, Repr

/-- A relation-member row. -/
structure relation_member where
  relation_id : Int
  version : Int
  member_type : nwr_kind
  member_id : Int
  member_role : Bytes
deriving DecidableEq, Repr

/-- One diagnostic line on `stderr` (the "user with data_public=false made
a comment" message of xml_writer.cpp lines 512-515). -/
structure Diag where
  author_id : Int
  changeset_id : Int
deriving DecidableEq, Repr

/-- The per-document configuration held by `xml_writer`: the user table
(`m_users`), redaction policy (`m_user_info_level`), discussion flag
(`m_changeset_discussions`), history flag (`pimpl::m_has_history`) and
snapshot time (`pimpl::m_now`). -/
structure Ctx where
  users : List (Int × Bytes)
  uil : user_info_level
  cd : changeset_discussions
  hasHistory : Bool
  now : PTime
deriving DecidableEq, Repr

/-! ## Entity serializers

Each C++ pass walks its parent vector with `BOOST_FOREACH`, threading
merge-join iterators over the child vectors.  Iterators are modelled as
the list of rows not yet consumed; each function returns the events it
appends together with the final cursor position(s). -/

/-- Method `pimpl::add_tag` (both overloads): a `tag` element with `k`/`v`. -/
def add_tag_events (key value : Bytes) : List XmlEvent :=
  [.beginEl "tag", attrStr "k" key, attrStr "v" value, .endEl]

/-- Function `write_tags` (xml_writer.cpp lines 393-406): advance the versioned-tag
cursor while the current row's `(element_id, version)` key is at most
`(id, version)` in lexicographic order, emitting a `tag` element for each
row whose key matches exactly.  Returns (events, final cursor). -/
def write_tags (id version : Int) : List old_tag → List XmlEvent × List old_tag
  | [] => ([], [])
  | t :: rest =>
    if t.element_id < id ∨ (t.element_id = id ∧ t.version ≤ version) then
      let r := write_tags id version rest
      ((if t.element_id = id ∧ t.version = version then add_tag_events t.key t.value
        else []) ++ r.1, r.2)
    else ([], t :: rest)

/-- Function `write_common_attributes` (xml_writer.cpp lines 364-387): timestamp,
version, changeset, the `visible` flag when history is on, and — when the
redaction policy is FULL and the record's changeset is in the
changeset→author map whose author resolves in the user table — `user` and
`uid`. -/
def write_common_attributes (ctx : Ctx) (cmap : List (Int × Int))
    (timestamp : PTime) (version changeset_id : Int) (visible : Bool) :
    List XmlEvent :=
  [attrTime "timestamp" timestamp, attrInt "version" version,
   attrInt "changeset" changeset_id]
  ++ (if ctx.hasHistory then [attrBool "visible" visible] else [])
  ++ (match (if ctx.uil = user_info_level.FULL then cmap.lookup changeset_id else none) with
      | some uid =>
        match ctx.users.lookup uid with
        | some name => [attrStr "user" name, attrInt "uid" uid]
        | none => []
      | none => [])

/-- One iteration of `xml_writer::nodes` (lines 537-554): open the `node`
element, `id`, `lat`/`lon` only when visible, common attributes, and —
only when visible — the merge-join over the tag cursor. -/
def node_step (ctx : Ctx) (cmap : List (Int × Int)) (n : node)
    (tags : List old_tag) : List XmlEvent × List old_tag :=
  let geo := if n.visible then
      [attrDouble "lat" (coordDouble n.latitude),
       attrDouble "lon" (coordDouble n.longitude)] else []
  let tr := if n.visible then write_tags n.id n.version tags else ([], tags)
  ([.beginEl "node", attrInt "id" n.id] ++ geo
    ++ write_common_attributes ctx cmap n.timestamp n.version n.changeset_id n.visible
    ++ tr.1 ++ [.endEl], tr.2)

/-- Pass `xml_writer::nodes`: fold `node_step` over the node vector. -/
def nodes_pass (ctx : Ctx) (cmap : List (Int × Int)) :
    List node → List old_tag → List XmlEvent × List old_tag
  | [], tags => ([], tags)
  | n :: ns, tags =>
    let r := node_step ctx cmap n tags
    let p := nodes_pass ctx cmap ns r.2
    (r.1 ++ p.1, p.2)

/-- The way-node merge-join inside `xml_writer::ways` (lines 572-582):
same cursor discipline as `write_tags`, emitting `nd` elements. -/
def write_way_nodes (id version : Int) : List way_node → List XmlEvent × List way_node
  | [] => ([], [])
  | wn :: rest =>
    if wn.way_id < id ∨ (wn.way_id = id ∧ wn.version ≤ version) then
      let r := write_way_nodes id version rest
      ((if wn.way_id = id ∧ wn.version = version then
          [.beginEl "nd", attrInt "ref" wn.node_id, .endEl]
        else []) ++ r.1, r.2)
    else ([], wn :: rest)

/-- One iteration of `xml_writer::ways` (lines 563-588): `nd` children
before `tag` children, both only when the way is visible. -/
def way_step (ctx : Ctx) (cmap : List (Int × Int)) (w : way)
    (wns : List way_node) (tags : List old_tag) :
    List XmlEvent × List way_node × List old_tag :=
  let nr := if w.visible then write_way_nodes w.id w.version wns else ([], wns)
  let tr := if w.visible then write_tags w.id w.version tags else ([], tags)
  ([.beginEl "way", attrInt "id" w.id]
    ++ write_common_attributes ctx cmap w.timestamp w.version w.changeset_id w.visible
    ++ nr.1 ++ tr.1 ++ [.endEl], nr.2, tr.2)

/-- Pass `xml_writer::ways`: fold `way_step` over the way vector. -/
def ways_pass (ctx : Ctx) (cmap : List (Int × Int)) :
    List way → List way_node → List old_tag →
    List XmlEvent × List way_node × List old_tag
  | [], wns, tags => ([], wns, tags)
  | w :: ws, wns, tags =>
    let r := way_step ctx cmap w wns tags
    let p := ways_pass ctx cmap ws r.2.1 r.2.2
    (r.1 ++ p.1, p.2)

/-- The `member` element for one relation-member row (lines 610-619). -/
def member_events (m : relation_member) : List XmlEvent :=
  [.beginEl "member",
   attrStr "type" (strBytes (match m.member_type with
     | .nwr_node => "node" | .nwr_way => "way" | .nwr_relation => "relation")),
   attrInt "ref" m.member_id, attrStr "role" m.member_role, .endEl]

/-- The relation-member merge-join inside `xml_writer::relations`
(lines 605-622). -/
def write_members (id version : Int) :
    List relation_member → List XmlEvent × List relation_member
  | [] => ([], [])
  | rm :: rest =>
    if rm.relation_id < id ∨ (rm.relation_id = id ∧ rm.version ≤ version) then
      let r := write_members id version rest
      ((if rm.relation_id = id ∧ rm.version = version then member_events rm
        else []) ++ r.1, r.2)
    else ([], rm :: rest)

/-- One iteration of `xml_writer::relations` (lines 597-628). -/
def relation_step (ctx : Ctx) (cmap : List (Int × Int)) (r : relation)
    (rms : List relation_member) (tags : List old_tag) :
    List XmlEvent × List relation_member × List old_tag :=
  let mr := if r.visible then write_members r.id r.version rms else ([], rms)
  let tr := if r.visible then write_tags r.id r.version tags else ([], tags)
  ([.beginEl "relation", attrInt "id" r.id]
    ++ write_common_attributes ctx cmap r.timestamp r.version r.changeset_id r.visible
    ++ mr.1 ++ tr.1 ++ [.endEl], mr.2, tr.2)

/-- Pass `xml_writer::relations`: fold `relation_step` over the relation vector. -/
def relations_pass (ctx : Ctx) (cmap : List (Int × Int)) :
    List relation → List relation_member → List old_tag →
    List XmlEvent × List relation_member × List old_tag
  | [], rms, tags => ([], rms, tags)
  | r :: rs, rms, tags =>
    let o := relation_step ctx cmap r rms tags
    let p := relations_pass ctx cmap rs o.2.1 o.2.2
    (o.1 ++ p.1, p.2)

/-! ## The changeset pass -/

/-- Method `pimpl::add_comment` (lines 346-357): a `comment` element — `uid` and
`user` only under FULL redaction — then `date` and a `text` child holding
the comment body.  Note the body is written whatever the redaction policy. -/
def add_comment_events (uil : user_info_level) (c : changeset_comment)
    (display_name : Bytes) : List XmlEvent :=
  [.beginEl "comment"]
  ++ (if uil = user_info_level.FULL then
        [attrInt "uid" c.author_id, attrStr "user" display_name] else [])
  ++ [attrTime "date" c.created_at, .beginEl "text", textEv c.body, .endEl, .endEl]

/-- What one matching visible comment contributes to the discussion: its
`comment` element if its author resolves in the user table, nothing when
the lookup fails (the skip branch of lines 510-518). -/
def commentBlock (ctx : Ctx) (c : changeset_comment) : List XmlEvent :=
  match ctx.users.lookup c.author_id with
  | some name => add_comment_events ctx.uil c name
  | none => []

/-- The discussion emission loop (lines 507-520): for each comment of the
lookahead range, if it belongs to this changeset and is visible, either
emit its `comment` element or — when the author is absent from the user
table — emit a diagnostic and skip it. -/
def discussion_loop (ctx : Ctx) (id : Int) :
    List changeset_comment → List XmlEvent × List Diag
  | [] => ([], [])
  | c :: rest =>
    let p := discussion_loop ctx id rest
    if c.changeset_id = id ∧ c.visible then
      match ctx.users.lookup c.author_id with
      | none => (p.1, ⟨c.author_id, c.changeset_id⟩ :: p.2)
      | some name => (add_comment_events ctx.uil c name ++ p.1, p.2)
    else p

/-- The changeset-tag merge-join (lines 495-500): keyed by `element_id`
alone. -/
def write_cs_tags (id : Int) : List current_tag → List XmlEvent × List current_tag
  | [] => ([], [])
  | t :: rest =>
    if t.element_id ≤ id then
      let r := write_cs_tags id rest
      ((if t.element_id = id then add_tag_events t.key t.value else []) ++ r.1, r.2)
    else ([], t :: rest)

/-- The bounded comment lookahead (lines 481-490): the rows from the
cursor up to the first one with `changeset_id > cs.id`. -/
def csLookahead (id : Int) (ccs : List changeset_comment) : List changeset_comment :=
  ccs.takeWhile (fun c => decide (c.changeset_id ≤ id))

/-- The visible-comment count computed by that lookahead. -/
def comment_count (id : Int) (ccs : List changeset_comment) : Nat :=
  ((csLookahead id ccs).filter (fun c => decide (c.changeset_id = id) && c.visible)).length

/-- The bounding-box attributes (lines 470-475): emitted only when all
four bounds are present, in the order min_lat, min_lon, max_lat, max_lon. -/
def bbox_events (cs : changeset) : List XmlEvent :=
  match cs.min_lat, cs.max_lat, cs.min_lon, cs.max_lon with
  | some mnla, some mxla, some mnlo, some mxlo =>
    [attrDouble "min_lat" (coordDouble mnla), attrDouble "min_lon" (coordDouble mnlo),
     attrDouble "max_lat" (coordDouble mxla), attrDouble "max_lon" (coordDouble mxlo)]
  | _, _, _, _ => []

/-- Modelling `std::map::insert`: adds the binding only when the key is absent. -/
def mapInsert (k v : Int) (m : List (Int × Int)) : List (Int × Int) :=
  if (m.lookup k).isSome then m else m ++ [(k, v)]

/-- The attributes of one `changeset` element, in emission order
(lines 447-493): `id`, `created_at`, `closed_at` when not open, `open`,
`user`/`uid` when FULL redaction resolves the author, the bounding box,
`num_changes`, `comments_count`. -/
def cs_attr_events (ctx : Ctx) (ccs : List changeset_comment) (cs : changeset) :
    List XmlEvent :=
  let isOpen := PTime.lt ctx.now cs.closed_at
  [attrInt "id" cs.id, attrTime "created_at" cs.created_at]
  ++ (if isOpen then [] else [attrTime "closed_at" cs.closed_at])
  ++ [attrBool "open" isOpen]
  ++ (match (if ctx.uil = user_info_level.FULL then ctx.users.lookup cs.uid else none) with
      | some name => [attrStr "user" name, attrInt "uid" cs.uid]
      | none => [])
  ++ bbox_events cs
  ++ [attrInt "num_changes" cs.num_changes,
      attrInt "comments_count" (comment_count cs.id ccs : Int)]

/-- Result of serializing one changeset: its events, its diagnostics, and
the updated changeset→author map and child cursors. -/
structure cs_out where
  events : List XmlEvent
  diags : List Diag
  cmap : List (Int × Int)
  tagRem : List current_tag
  comRem : List changeset_comment
deriving DecidableEq, Repr

/-- One iteration of `xml_writer::changesets` (lines 444-530). -/
def cs_step (ctx : Ctx) (cmap : List (Int × Int)) (tags : List current_tag)
    (ccs : List changeset_comment) (cs : changeset) : cs_out :=
  let cmap' := match (if ctx.uil = user_info_level.FULL then ctx.users.lookup cs.uid else none) with
    | some _ => mapInsert cs.id cs.uid cmap
    | none => cmap
  let cnt := comment_count cs.id ccs
  let tr := write_cs_tags cs.id tags
  let look := csLookahead cs.id ccs
  let discOn := 0 < cnt ∧ ctx.cd = changeset_discussions.FULL
  let discEvs := if discOn then
      [.beginEl "discussion"] ++ (discussion_loop ctx cs.id look).1 ++ [.endEl]
    else []
  let discDiags := if discOn then (discussion_loop ctx cs.id look).2 else []
  { events := [.beginEl "changeset"] ++ cs_attr_events ctx ccs cs
      ++ tr.1 ++ discEvs ++ [.endEl],
    diags := discDiags,
    cmap := cmap',
    tagRem := tr.2,
    comRem := ccs.drop look.length }

/-- Result of the whole changeset pass. -/
structure pass_out where
  events : List XmlEvent
  diags : List Diag
  cmap : List (Int × Int)
deriving DecidableEq, Repr

/-- Pass `xml_writer::changesets`: fold `cs_step` over the changeset vector,
threading the two cursors and accumulating the changeset→author map. -/
def changesets_pass (ctx : Ctx) (cmap : List (Int × Int))
    (tags : List current_tag) (ccs : List changeset_comment) :
    List changeset → pass_out
  | [] => ⟨[], [], cmap⟩
  | cs :: rest =>
    let o := cs_step ctx cmap tags ccs cs
    let p := changesets_pass ctx o.cmap o.tagRem o.comRem rest
    ⟨o.events ++ p.events, o.diags ++ p.diags, p.cmap⟩

/-! ## Document driver -/

/-- The constant strings baked into the root element (license, copyright,
schema version, attribution, API origin — macros from the repository's
`writer_common.hpp`/`config.h`, outside the provided source) plus the
configured generator name. -/
structure osm_consts where
  license : Bytes
  copyright : Bytes
  osmVersion : Bytes
  attribution : Bytes
  origin : Bytes
  generator : Bytes
deriving DecidableEq, Repr

/-- The `xml_writer` constructor (lines 419-430): the root `osm` element
with its fixed attributes and the `bound` child. -/
def header_events (k : osm_consts) (now : PTime) : List XmlEvent :=
  [.beginEl "osm", attrStr "license" k.license, attrStr "copyright" k.copyright,
   attrStr "version" k.osmVersion, attrStr "generator" k.generator,
   attrStr "attribution" k.attribution, attrTime "timestamp" now,
   .beginEl "bound", attrStr "box" (strBytes "-90,-180,90,180"),
   attrStr "origin" k.origin, .endEl]

/-- A full document generation run: header, then the changeset pass
(building the changeset→author map), then the node, way and relation
passes sharing that map, then the closing of the root element
(`xml_writer::finish`).  Returns the event stream and the diagnostics. -/
def document_events (ctx : Ctx) (k : osm_consts)
    (css : List changeset) (ts : List current_tag) (ccs : List changeset_comment)
    (ns : List node) (nts : List old_tag)
    (ws : List way) (wns : List way_node) (wts : List old_tag)
    (rs : List relation) (rms : List relation_member) (rts : List old_tag) :
    List XmlEvent × List Diag :=
  let cp := changesets_pass ctx [] ts ccs css
  let np := nodes_pass ctx cp.cmap ns nts
  let wp := ways_pass ctx cp.cmap ws wns wts
  let rp := relations_pass ctx cp.cmap rs rms rts
  (header_events k ctx.now ++ cp.events ++ np.1 ++ wp.1 ++ rp.1 ++ [.endEl], cp.diags)

/-! ## Predicates used to state the merge-join properties -/

/-- The loop guard of `write_tags`: the row's key is at most `(id, v)`. -/
def tagGuard (id v : Int) (t : old_tag) : Bool :=
  decide (t.element_id < id ∨ (t.element_id = id ∧ t.version ≤ v))

/-- The match test of `write_tags`: the row's key equals `(id, v)`. -/
def tagMatch (id v : Int) (t : old_tag) : Bool :=
  decide (t.element_id = id ∧ t.version = v)

/-- The sort order of a versioned-tag sequence: non-decreasing
`(element_id, version)` keys (lexicographic). -/
def keyLe (a b : old_tag) : Prop :=
  a.element_id < b.element_id ∨ (a.element_id = b.element_id ∧ a.version ≤ b.version)

instance : DecidableRel keyLe := fun a b => by unfold keyLe; infer_instance

/-- The redaction hyperproperty: an event list carries no `user` and no
`uid` attribute, whatever their values. -/
def noUserUid (evs : List XmlEvent) : Prop :=
  ∀ val, XmlEvent.attrE "user" val ∉ evs ∧ XmlEvent.attrE "uid" val ∉ evs

/-! ## Concrete fixtures for witnesses and counterexamples -/

/-- A user table resolving ids 7 and 8. -/
def exUsers : List (Int × Bytes) := [(7, strBytes "alice"), (8, strBytes "bob")]

/-- FULL redaction, discussions on, history on, snapshot 2023-01-05T03:04:05. -/
def exCtxFull : Ctx := ⟨exUsers, .FULL, .FULL, true, .mk 2023 1 5 3 4 5⟩

/-- Same configuration under SUMMARY redaction. -/
def exCtxSummary : Ctx := { exCtxFull with uil := .SUMMARY }

/-- An invisible node, id 1 version 1. -/
def exNode : node := ⟨1, 1, false, .mk 2020 1 1 0 0 0, 5, 10, 20⟩

/-- A tag row keyed to `exNode`'s (id, version). -/
def exNodeTag : old_tag := ⟨1, 1, strBytes "k1", strBytes "v1"⟩

/-- The merge-join example child sequence of the specification. -/
def exChildren : List old_tag :=
  [⟨1, 1, strBytes "ka", strBytes "a"⟩, ⟨1, 2, strBytes "kb", strBytes "b"⟩,
   ⟨3, 1, strBytes "kc", strBytes "c"⟩]

/-- A changeset with an unset (`not_a_date_time`) `closed_at`. -/
def exChangesetUnset : changeset :=
  ⟨9, .mk 2020 1 1 0 0 0, .notADateTime, 7, none, none, none, none, 3⟩

/-- The end-to-end example changeset: id 5, closed before the snapshot. -/
def exChangeset5 : changeset :=
  ⟨5, .mk 2020 1 1 0 0 0, .mk 2020 1 2 0 0 0, 7, none, none, none, none, 2⟩

/-- Its two tags. -/
def exTags5 : List current_tag :=
  [⟨5, strBytes "ka", strBytes "va"⟩, ⟨5, strBytes "kb", strBytes "vb"⟩]

/-- A visible comment on changeset 5 by resolvable author 7. -/
def exComVisible : changeset_comment := ⟨5, 7, .mk 2021 1 1 0 0 0, strBytes "hello", true⟩

/-- An invisible comment on changeset 5. -/
def exComInvisible : changeset_comment := ⟨5, 8, .mk 2021 1 2 0 0 0, strBytes "gone", false⟩

/-- A visible comment on changeset 5 whose author 99 is not in the user table. -/
def exComOrphan : changeset_comment := ⟨5, 99, .mk 2021 1 1 0 0 0, strBytes "orphan", true⟩

/-- A changeset (id 6) whose author 99 is not in the user table. -/
def exCsNoAuthor : changeset :=
  ⟨6, .mk 2020 1 1 0 0 0, .mk 2020 1 2 0 0 0, 99, none, none, none, none, 1⟩

/-- Fixed root-element constants for concrete document runs. -/
def exConsts : osm_consts :=
  ⟨strBytes "L", strBytes "C", strBytes "0.6", strBytes "A", strBytes "O", strBytes "G"⟩

/-! # Theorems

First a few facts about decimal digit rendering, shared by several
claims. -/

lemma natDecAux_digits : ∀ f n b, b ∈ natDecAux f n → 48 ≤ b ∧ b < 58 := by
  intro f
  induction f with
  | zero => intro n b hb; simp [natDecAux] at hb
  | succ f ih =>
    intro n b hb
    by_cases hn : n < 10
    · simp [natDecAux, hn] at hb; omega
    · simp [natDecAux, hn] at hb
      rcases hb with h | h
      · exact ih _ _ h
      · omega

lemma natDecAux_len : ∀ f n k, n < 10 ^ (k + 1) → (natDecAux f n).length ≤ k + 1 := by
  intro f
  induction f with
  | zero => intro n k _; simp [natDecAux]
  | succ f ih =>
    intro n k hn
    by_cases h : n < 10
    · simp [natDecAux, h]
    · rcases k with _ | k
      · norm_num at hn; omega
      · have hd : n / 10 < 10 ^ (k + 1) := by
          rw [Nat.div_lt_iff_lt_mul (by norm_num)]
          calc n < 10 ^ (k + 1 + 1) := hn
          _ = 10 ^ (k + 1) * 10 := by ring
        have := ih (n / 10) k hd
        simp [natDecAux, h]
        omega

lemma natDec_digits (n : Nat) : ∀ b ∈ natDec n, 48 ≤ b ∧ b < 58 :=
  fun b hb => natDecAux_digits _ _ b hb

lemma natDec_len7 (n : Nat) (h : n < 10000000) : (natDec n).length ≤ 7 := by
  have h7 : n < 10 ^ (6 + 1) := by norm_num; omega
  exact natDecAux_len (n + 1) n 6 h7

lemma pad7_len (n : Nat) (h : n < 10000000) : (pad7 n).length = 7 := by
  unfold pad7
  rw [List.length_append, List.length_replicate]
  have := natDec_len7 n h
  omega

lemma pad7_digits (n : Nat) : ∀ b ∈ pad7 n, 48 ≤ b ∧ b < 58 := by
  intro b hb
  unfold pad7 at hb
  rcases List.mem_append.1 hb with h | h
  · have := List.eq_of_mem_replicate h; omega
  · exact natDec_digits n b h

/-- Shape of any `%.7f` rendering: an optional sign and integer digits, one
decimal point, then exactly seven fractional digits. -/
lemma fmt7_shape (q : Frac) :
    ∃ pre frac, fmt7 q = pre ++ 46 :: frac ∧ frac.length = 7 ∧
      (∀ b ∈ frac, 48 ≤ b ∧ b < 58) ∧ 46 ∉ pre := by
  refine ⟨(if q.num < 0 then [45] else []) ++
      natDec ((roundHalfEven ⟨(q.num.natAbs : Int) * 10000000, q.den⟩).toNat / 10000000),
      pad7 ((roundHalfEven ⟨(q.num.natAbs : Int) * 10000000, q.den⟩).toNat % 10000000),
      ?_, ?_, ?_, ?_⟩
  · simp [fmt7, List.append_assoc]
  · exact pad7_len _ (Nat.mod_lt _ (by norm_num))
  · exact pad7_digits _
  · intro hmem
    rcases List.mem_append.1 hmem with h | h
    · split at h <;> simp at h
    · have := natDec_digits _ _ h; omega

/-- C4 (counterexample): `fmt_iso_time` applied to 2023-01-05T03:04:05 does
not equal the bare 20-character string `"2023-01-05T03:04:05Z"` — the
`std::string` it builds has 21 bytes, the last being the NUL stored at
index 20. -/
theorem fmt_iso_time_not_bare_20 :
    fmt_iso_time (.mk 2023 1 5 3 4 5) ≠ strBytes "2023-01-05T03:04:05Z" := by decide

/-- C4 (amended): `fmt_iso_time` on a null/unset (`not_a_date_time`) time
yields the empty string; on 2023-01-05T03:04:05 it yields the 20-character
pattern `2023-01-05T03:04:05Z` followed by one NUL byte; and on every
non-special time the result has exactly 21 bytes. -/
theorem fmt_iso_time_spec :
    fmt_iso_time .notADateTime = []
    ∧ fmt_iso_time (.mk 2023 1 5 3 4 5) = strBytes "2023-01-05T03:04:05Z" ++ [0]
    ∧ ∀ y mo d h mi s, (fmt_iso_time (.mk y mo d h mi s)).length = 21 :=
  ⟨rfl, by decide, fun _ _ _ _ _ _ => rfl⟩

/-- Pointwise agreement of the signed-char condition of the source with
the byte-level condition of the specification, for any byte value. -/
lemma sanitize_byte (b : Nat) (hb : b < 256) :
    (if 0 ≤ signedChar b ∧ signedChar b < 0x20 ∧ signedChar b ≠ 0x09 ∧
        signedChar b ≠ 0x0a ∧ signedChar b ≠ 0x0d then 63 else b)
    = (if b < 0x20 ∧ b ≠ 9 ∧ b ≠ 10 ∧ b ≠ 13 then 63 else b) := by
  unfold signedChar
  split_ifs <;> omega

/-- C5: `replace_xml_bad_chars` maps each byte to `'?'` exactly when it is
an ASCII control byte below 0x20 other than tab, line feed or carriage
return, and leaves every other byte (including 0x80 and above) unchanged;
the output has the same length as the input. -/
theorem sanitize_spec (s : Bytes) (h : ∀ b ∈ s, b < 256) :
    replace_xml_bad_chars s
      = s.map (fun b => if b < 0x20 ∧ b ≠ 9 ∧ b ≠ 10 ∧ b ≠ 13 then 63 else b)
    ∧ (replace_xml_bad_chars s).length = s.length := by
  constructor
  · unfold replace_xml_bad_chars
    exact List.map_congr_left fun b hb => sanitize_byte b (h b hb)
  · simp [replace_xml_bad_chars]

/-- Witness for C5 at a concrete byte string covering a control byte, the
three preserved control bytes, a printable byte and a byte above 0x7f. -/
theorem sanitize_spec_witness :
    (∀ b ∈ ([0, 9, 10, 13, 31, 65, 200] : Bytes), b < 256)
    ∧ replace_xml_bad_chars [0, 9, 10, 13, 31, 65, 200]
      = ([0, 9, 10, 13, 31, 65, 200] : Bytes).map
          (fun b => if b < 0x20 ∧ b ≠ 9 ∧ b ≠ 10 ∧ b ≠ 13 then 63 else b) :=
  ⟨by decide, (sanitize_spec [0, 9, 10, 13, 31, 65, 200] (by decide)).1⟩

set_option maxRecDepth 100000 in
/-- C8: every coordinate rendering — the scaled integer converted to
binary64, divided by 10,000,000 and printed with `%.7f` — consists of an
optional sign and integer digits, a single decimal point, and exactly
seven fractional digits; and the scaled integer 123456789 renders as
`"12.3456789"`. -/
theorem format_coordinate_spec :
    (∀ x : Int, ∃ pre frac, format_coordinate x = pre ++ 46 :: frac
      ∧ frac.length = 7 ∧ (∀ b ∈ frac, 48 ≤ b ∧ b < 58) ∧ 46 ∉ pre)
    ∧ format_coordinate 123456789 = strBytes "12.3456789" :=
  ⟨fun x => fmt7_shape (coordDouble x), by decide⟩

/-! ## The merge-join cursor (C6) -/

/-- In terms of `takeWhile`/`dropWhile`: `write_tags` consumes exactly the
longest prefix whose keys pass the loop guard, emits the tags of the
matching rows of that prefix in order, and leaves the cursor on the rest. -/
lemma write_tags_eq (id v : Int) : ∀ ts : List old_tag,
    write_tags id v ts
      = ((((ts.takeWhile (tagGuard id v)).filter (tagMatch id v)).map
            (fun t => add_tag_events t.key t.value)).flatten,
         ts.dropWhile (tagGuard id v)) := by
  intro ts
  induction ts with
  | nil => simp [write_tags]
  | cons t rest ih =>
    by_cases hg : t.element_id < id ∨ (t.element_id = id ∧ t.version ≤ v)
    · by_cases hm : t.element_id = id ∧ t.version = v
      · simp [write_tags, hg, hm, List.takeWhile_cons, List.dropWhile_cons,
              tagGuard, tagMatch, ih]
      · simp [write_tags, hg, hm, List.takeWhile_cons, List.dropWhile_cons,
              tagGuard, tagMatch, ih]
    · simp [write_tags, hg, List.takeWhile_cons, List.dropWhile_cons, tagGuard]

/-- A row failing the guard forces every later row of a sorted sequence to
fail it too. -/
lemma tagGuard_mono (id v : Int) {a b : old_tag} (hab : keyLe a b)
    (ha : tagGuard id v a = false) : tagGuard id v b = false := by
  unfold keyLe at hab
  simp [tagGuard] at *
  omega

/-- On a sorted sequence the guarded prefix is exactly the set of rows
whose key is at most the parent key. -/
lemma sorted_takeWhile_dropWhile (id v : Int) : ∀ ts : List old_tag,
    ts.Pairwise keyLe →
    ts.takeWhile (tagGuard id v) = ts.filter (tagGuard id v)
    ∧ ts.dropWhile (tagGuard id v) = ts.filter (fun t => !tagGuard id v t) := by
  intro ts
  induction ts with
  | nil => simp
  | cons t rest ih =>
    intro hp
    rcases List.pairwise_cons.1 hp with ⟨hall, hrest⟩
    rcases ih hrest with ⟨ht, hd⟩
    by_cases hg : tagGuard id v t = true
    · simp [List.takeWhile_cons, List.dropWhile_cons, hg, ht, hd]
    · have hg' : tagGuard id v t = false := by revert hg; cases tagGuard id v t <;> simp
      have hafter : ∀ u ∈ rest, tagGuard id v u = false :=
        fun u hu => tagGuard_mono id v (hall u hu) hg'
      constructor
      · rw [List.takeWhile_cons, hg']
        have : rest.filter (tagGuard id v) = [] :=
          List.filter_eq_nil_iff.2 (by intro a ha; simp [hafter a ha])
        simp [List.filter_cons, hg', this]
      · rw [List.dropWhile_cons, hg']
        have : rest.filter (fun t => !tagGuard id v t) = rest :=
          List.filter_eq_self.2 (by intro a ha; simp [hafter a ha])
        simp [List.filter_cons, hg', this]

/-- A matching row always passes the guard. -/
lemma tagMatch_implies_guard (id v : Int) (t : old_tag)
    (h : tagMatch id v t = true) : tagGuard id v t = true := by
  simp [tagMatch] at h
  simp [tagGuard]
  omega

/-- C6: on a child sequence sorted by `(element_id, version)`, one
merge-join advance for parent key `(id, v)` emits exactly one `tag`
element per row whose key equals `(id, v)` (in order), leaves the cursor
on exactly the rows whose key exceeds `(id, v)`, and the final cursor is a
suffix of the initial one — the cursor only moves forward and never
revisits a row. -/
theorem merge_join_spec (id v : Int) (ts : List old_tag)
    (hs : ts.Pairwise keyLe) :
    (write_tags id v ts).1
      = ((ts.filter (tagMatch id v)).map (fun t => add_tag_events t.key t.value)).flatten
    ∧ (write_tags id v ts).2 = ts.filter (fun t => !tagGuard id v t)
    ∧ (write_tags id v ts).2 <:+ ts := by
  rcases sorted_takeWhile_dropWhile id v ts hs with ⟨ht, hd⟩
  rw [write_tags_eq]
  dsimp only
  refine ⟨?_, hd, hd ▸ (sorted_takeWhile_dropWhile id v ts hs).2 ▸
    List.dropWhile_suffix _⟩
  rw [ht, List.filter_filter]
  have heq : ts.filter (fun a => tagMatch id v a && tagGuard id v a)
      = ts.filter (tagMatch id v) := by
    apply List.filter_congr
    intro t _
    by_cases hm : tagMatch id v t = true
    · simp [hm, tagMatch_implies_guard id v t hm]
    · simp at hm; simp [hm]
  rw [heq]

/-- Witness for C6: the specification's example — parents (1,1), (2,1),
(3,1) over children keyed (1,1), (1,2), (3,1) — instantiating the theorem
at the first parent and computing the remaining chained advances: parent 1
matches only the first row, parent 2 matches nothing, parent 3 matches the
last row, and the cursor never moves backwards. -/
theorem merge_join_spec_witness :
    exChildren.Pairwise keyLe
    ∧ ((write_tags 1 1 exChildren).1
        = ((exChildren.filter (tagMatch 1 1)).map
            (fun t => add_tag_events t.key t.value)).flatten
      ∧ (write_tags 1 1 exChildren).2 = exChildren.filter (fun t => !tagGuard 1 1 t)
      ∧ (write_tags 1 1 exChildren).2 <:+ exChildren)
    ∧ (write_tags 1 1 exChildren).1 = add_tag_events (strBytes "ka") (strBytes "a")
    ∧ (write_tags 2 1 (write_tags 1 1 exChildren).2).1 = []
    ∧ (write_tags 3 1 (write_tags 2 1 (write_tags 1 1 exChildren).2).2).1
        = add_tag_events (strBytes "kc") (strBytes "c")
    ∧ (write_tags 3 1 (write_tags 2 1 (write_tags 1 1 exChildren).2).2).2 = [] := by
  have hp : exChildren.Pairwise keyLe := by decide
  exact ⟨hp, merge_join_spec 1 1 exChildren hp, by decide, by decide, by decide, by decide⟩

/-! ## Invisible parents (C1) -/

/-- All events of `write_common_attributes` are attributes: it never opens
a child element. -/
lemma write_common_attributes_no_begin (ctx : Ctx) (cmap : List (Int × Int))
    (ts : PTime) (v cid : Int) (vis : Bool) (nm : String) :
    XmlEvent.beginEl nm ∉ write_common_attributes ctx cmap ts v cid vis := by
  intro h
  simp only [write_common_attributes, List.mem_append] at h
  rcases h with (h | h) | h
  · simp [attrTime, attrInt] at h
  · split at h <;> simp [attrBool] at h
  · split at h
    · split at h <;> simp [attrStr, attrInt] at h
    · simp at h

/-- C1 (counterexample to the claim as stated): an invisible node whose id
and version key an existing tag row.  The serialization step leaves the
tag cursor exactly where it was — still *before* the row keyed to this
parent — rather than advancing past it (and, indeed, emits no tag child). -/
theorem invisible_node_cursor_counterexample :
    exNode.visible = false
    ∧ exNodeTag.element_id = exNode.id ∧ exNodeTag.version = exNode.version
    ∧ (node_step exCtxFull [] exNode [exNodeTag]).2 = [exNodeTag]
    ∧ XmlEvent.beginEl "tag" ∉ (node_step exCtxFull [] exNode [exNodeTag]).1 := by
  decide

/-- C1 (amended): for every invisible node, way or relation the serializer
emits no child elements (`tag`, `nd`, `member`), and the merge-join
cursor(s) do not move at all during that parent's serialization step: rows
keyed to an invisible parent stay on the cursor and are only discarded
later, by the guard of a subsequent parent's advance. -/
theorem invisible_parent_children (ctx : Ctx) (cmap : List (Int × Int)) :
    (∀ (n : node) (tags : List old_tag), n.visible = false →
      (node_step ctx cmap n tags).2 = tags
      ∧ XmlEvent.beginEl "tag" ∉ (node_step ctx cmap n tags).1)
    ∧ (∀ (w : way) (wns : List way_node) (tags : List old_tag), w.visible = false →
      (way_step ctx cmap w wns tags).2.1 = wns
      ∧ (way_step ctx cmap w wns tags).2.2 = tags
      ∧ XmlEvent.beginEl "nd" ∉ (way_step ctx cmap w wns tags).1
      ∧ XmlEvent.beginEl "tag" ∉ (way_step ctx cmap w wns tags).1)
    ∧ (∀ (r : relation) (rms : List relation_member) (tags : List old_tag),
        r.visible = false →
      (relation_step ctx cmap r rms tags).2.1 = rms
      ∧ (relation_step ctx cmap r rms tags).2.2 = tags
      ∧ XmlEvent.beginEl "member" ∉ (relation_step ctx cmap r rms tags).1
      ∧ XmlEvent.beginEl "tag" ∉ (relation_step ctx cmap r rms tags).1) := by
  refine ⟨?_, ?_, ?_⟩
  · intro n tags hv
    refine ⟨by simp [node_step, hv], ?_⟩
    intro hmem
    simp only [node_step, hv, Bool.false_eq_true, if_false, List.append_nil,
      List.nil_append, List.mem_append, List.mem_cons, List.mem_singleton] at hmem
    rcases hmem with (h | h) | h | h
    · simp [attrInt] at h
    · exact write_common_attributes_no_begin ctx cmap _ _ _ _ _ h
    · simp at h
    · simp at h
  · intro w wns tags hv
    refine ⟨by simp [way_step, hv], by simp [way_step, hv], ?_, ?_⟩ <;>
    · intro hmem
      simp only [way_step, hv, Bool.false_eq_true, if_false, List.append_nil,
        List.nil_append, List.mem_append, List.mem_cons, List.mem_singleton] at hmem
      rcases hmem with (h | h) | h | h
      · simp [attrInt] at h
      · exact write_common_attributes_no_begin ctx cmap _ _ _ _ _ h
      · simp at h
      · simp at h
  · intro r rms tags hv
    refine ⟨by simp [relation_step, hv], by simp [relation_step, hv], ?_, ?_⟩ <;>
    · intro hmem
      simp only [relation_step, hv, Bool.false_eq_true, if_false, List.append_nil,
        List.nil_append, List.mem_append, List.mem_cons, List.mem_singleton] at hmem
      rcases hmem with (h | h) | h | h
      · simp [attrInt] at h
      · exact write_common_attributes_no_begin ctx cmap _ _ _ _ _ h
      · simp at h
      · simp at h

/-- Witness for C1 (amended) at the concrete invisible node. -/
theorem invisible_parent_children_witness :
    exNode.visible = false
    ∧ ((node_step exCtxFull [] exNode [exNodeTag]).2 = [exNodeTag]
      ∧ XmlEvent.beginEl "tag" ∉ (node_step exCtxFull [] exNode [exNodeTag]).1) :=
  ⟨by decide, (invisible_parent_children exCtxFull []).1 exNode [exNodeTag] (by decide)⟩

/-! ## Changeset `open` / `closed_at` (C3) -/

/-- Attribute names occurring in the bounding-box block. -/
lemma bbox_events_attr {cs : changeset} {nm : String} {val : Bytes}
    (h : XmlEvent.attrE nm val ∈ bbox_events cs) :
    nm = "min_lat" ∨ nm = "min_lon" ∨ nm = "max_lat" ∨ nm = "max_lon" := by
  unfold bbox_events at h
  split at h <;> simp [attrDouble] at h <;> tauto

/-- C3 (counterexample to the claim as stated): for a changeset whose
`closed_at` is unset (`not_a_date_time`), the element is emitted with
`open="false"` and a `closed_at` attribute whose formatted value is the
empty string — not with `open="true"` and `closed_at` omitted. -/
theorem changeset_unset_closed_counterexample :
    exChangesetUnset.closed_at = PTime.notADateTime
    ∧ XmlEvent.attrE "open" (strBytes "false")
        ∈ cs_attr_events exCtxFull [] exChangesetUnset
    ∧ XmlEvent.attrE "closed_at" [] ∈ cs_attr_events exCtxFull [] exChangesetUnset := by
  decide

/-- C3 (amended): the changeset element's attribute block (which the full
serialization step wraps between `<changeset>` and its children) carries
`open="true"` with no `closed_at` attribute exactly when `closed_at` is
set and strictly later than the snapshot time; otherwise — `closed_at`
at/before the snapshot time, or unset, since a boost comparison against
`not_a_date_time` is false — it carries `open="false"` together with a
`closed_at` attribute holding the formatted value (empty for unset). -/
theorem changeset_open_spec (ctx : Ctx) (cmap : List (Int × Int))
    (tags : List current_tag) (ccs : List changeset_comment) (cs : changeset) :
    (∃ rest, (cs_step ctx cmap tags ccs cs).events
        = .beginEl "changeset" :: (cs_attr_events ctx ccs cs ++ rest))
    ∧ (PTime.lt ctx.now cs.closed_at = true →
        attrBool "open" true ∈ cs_attr_events ctx ccs cs
        ∧ ∀ val, XmlEvent.attrE "closed_at" val ∉ cs_attr_events ctx ccs cs)
    ∧ (PTime.lt ctx.now cs.closed_at = false →
        attrBool "open" false ∈ cs_attr_events ctx ccs cs
        ∧ attrTime "closed_at" cs.closed_at ∈ cs_attr_events ctx ccs cs)
    ∧ (cs.closed_at = PTime.notADateTime → PTime.lt ctx.now cs.closed_at = false) := by
  refine ⟨?_, ?_, ?_, ?_⟩
  · exact ⟨(write_cs_tags cs.id tags).1
      ++ (if 0 < comment_count cs.id ccs ∧ ctx.cd = changeset_discussions.FULL then
            [.beginEl "discussion"]
            ++ (discussion_loop ctx cs.id (csLookahead cs.id ccs)).1 ++ [.endEl]
          else [])
      ++ [.endEl], by simp [cs_step, List.append_assoc]⟩
  · intro hopen
    refine ⟨by simp [cs_attr_events, hopen], ?_⟩
    intro val hmem
    have hrw : cs_attr_events ctx ccs cs
        = [attrInt "id" cs.id, attrTime "created_at" cs.created_at, attrBool "open" true]
          ++ (match (if ctx.uil = user_info_level.FULL then ctx.users.lookup cs.uid
                     else none) with
              | some name => [attrStr "user" name, attrInt "uid" cs.uid]
              | none => [])
          ++ bbox_events cs
          ++ [attrInt "num_changes" cs.num_changes,
              attrInt "comments_count" (comment_count cs.id ccs : Int)] := by
      simp [cs_attr_events, hopen]
    rw [hrw] at hmem
    rcases List.mem_append.1 hmem with h | h
    · rcases List.mem_append.1 h with h | h
      · rcases List.mem_append.1 h with h | h
        · simp [attrInt, attrTime, attrBool] at h
        · split at h <;> simp [attrStr, attrInt] at h
      · rcases bbox_events_attr h with h | h | h | h <;> simp at h
    · simp [attrInt] at h
  · intro hopen
    exact ⟨by simp [cs_attr_events, hopen], by simp [cs_attr_events, hopen]⟩
  · intro h
    rw [h]
    cases ctx.now <;> rfl

/-- Witness for C3 (amended) at the changeset with unset `closed_at`. -/
theorem changeset_open_spec_witness :
    PTime.lt exCtxFull.now exChangesetUnset.closed_at = false
    ∧ (attrBool "open" false ∈ cs_attr_events exCtxFull [] exChangesetUnset
      ∧ attrTime "closed_at" exChangesetUnset.closed_at
          ∈ cs_attr_events exCtxFull [] exChangesetUnset) :=
  ⟨by decide, (changeset_open_spec exCtxFull [] [] [] exChangesetUnset).2.2.1 (by decide)⟩

/-! ## Discussion emission (C7, C9) -/

/-- Characterization of the discussion loop: its events are the comment
blocks of the visible comments of this changeset (in order), and its
diagnostics are exactly the visible comments of this changeset whose
author is absent from the user table. -/
lemma discussion_loop_spec (ctx : Ctx) (id : Int) : ∀ l : List changeset_comment,
    (discussion_loop ctx id l).1
      = ((l.filter (fun c => decide (c.changeset_id = id) && c.visible)).map
          (commentBlock ctx)).flatten
    ∧ (discussion_loop ctx id l).2
      = (l.filter (fun c => decide (c.changeset_id = id) && c.visible
          && (ctx.users.lookup c.author_id).isNone)).map
          (fun c => (⟨c.author_id, c.changeset_id⟩ : Diag)) := by
  intro l
  induction l with
  | nil => simp [discussion_loop]
  | cons c rest ih =>
    by_cases hc : c.changeset_id = id ∧ c.visible
    · have hm : (decide (c.changeset_id = id) && c.visible) = true := by
        simp [hc.1, hc.2]
      cases hl : ctx.users.lookup c.author_id with
      | none =>
        constructor
        · simp [discussion_loop, hc, hl, List.filter_cons, hm, commentBlock, ih.1]
        · simp [discussion_loop, hc, hl, List.filter_cons, hm, ih.2]
      | some name =>
        constructor
        · simp [discussion_loop, hc, hl, List.filter_cons, hm, commentBlock, ih.1]
        · simp [discussion_loop, hc, hl, List.filter_cons, hm, ih.2]
    · have hm : (decide (c.changeset_id = id) && c.visible) = false := by
        cases hv : c.visible with
        | false => simp [hv]
        | true =>
          simp [hv]
          exact fun he => absurd ⟨he, hv⟩ hc
      constructor
      · simp [discussion_loop, hc, List.filter_cons, hm, ih.1]
      · simp [discussion_loop, hc, List.filter_cons, hm, ih.2]

/-- One comment block opens exactly one `comment` element when the author
resolves, and none otherwise. -/
lemma commentBlock_count (ctx : Ctx) (c : changeset_comment) :
    (commentBlock ctx c).count (XmlEvent.beginEl "comment")
      = if (ctx.users.lookup c.author_id).isSome then 1 else 0 := by
  unfold commentBlock
  cases hl : ctx.users.lookup c.author_id with
  | none => simp
  | some name =>
    cases huil : ctx.uil <;>
      simp [add_comment_events, huil, textEv, attrInt, attrStr, attrTime,
        List.count_cons, List.count_append]

/-- Counting `comment` elements across the blocks of a comment list. -/
lemma discussion_events_count (ctx : Ctx) : ∀ l : List changeset_comment,
    ((l.map (commentBlock ctx)).flatten).count (XmlEvent.beginEl "comment")
      = (l.filter (fun c => (ctx.users.lookup c.author_id).isSome)).length := by
  intro l
  induction l with
  | nil => simp
  | cons c rest ih =>
    cases hl : ctx.users.lookup c.author_id with
    | none => simp [List.count_append, commentBlock_count, hl, List.filter_cons, ih]
    | some name =>
      simp [List.count_append, commentBlock_count, hl, List.filter_cons, ih]
      omega

/-- On a comment sequence sorted by changeset id, filtering the bounded
lookahead by any predicate that forces `changeset_id = id` is the same as
filtering the whole sequence. -/
lemma sorted_lookahead_filter (id : Int) (p : changeset_comment → Bool)
    (hp : ∀ c, p c = true → c.changeset_id = id) :
    ∀ ccs : List changeset_comment,
    ccs.Pairwise (fun a b => a.changeset_id ≤ b.changeset_id) →
    (csLookahead id ccs).filter p = ccs.filter p := by
  intro ccs
  induction ccs with
  | nil => simp [csLookahead]
  | cons c rest ih =>
    intro hs
    rcases List.pairwise_cons.1 hs with ⟨hall, hrest⟩
    by_cases hle : c.changeset_id ≤ id
    · have hba : decide (c.changeset_id ≤ id) = true := by simpa using hle
      have hlk : csLookahead id (c :: rest) = c :: csLookahead id rest := by
        simp [csLookahead, List.takeWhile_cons, hba]
      rw [hlk, List.filter_cons, List.filter_cons, ih hrest]
    · have hgt : id < c.changeset_id := by omega
      have hpc : p c = false := by
        cases h : p c with
        | false => rfl
        | true => exact absurd (hp c h) (by omega)
      have hall' : ∀ u ∈ rest, p u = false := by
        intro u hu
        cases h : p u with
        | false => rfl
        | true =>
          have h1 := hp u h
          have h2 := hall u hu
          omega
      have h1 : (csLookahead id (c :: rest)).filter p = [] := by
        simp [csLookahead, List.takeWhile_cons, hle]
      have h2 : (c :: rest).filter p = [] := by
        rw [List.filter_eq_nil_iff]
        intro a ha
        rcases List.mem_cons.1 ha with h | h
        · rw [h]; simp [hpc]
        · simp [hall' a h]
      rw [h1, h2]

/-- C9: during discussion emission a visible comment of the current
changeset whose author id is absent from the user table contributes no
`comment` element and exactly one diagnostic, and the loop continues
normally: its output is precisely the comment blocks of the resolvable
visible comments and one diagnostic per unresolvable one (the embedding is
a total function — this never aborts document generation). -/
theorem comment_author_skip_spec (ctx : Ctx) (id : Int) (l : List changeset_comment) :
    (discussion_loop ctx id l).1
      = ((l.filter (fun c => decide (c.changeset_id = id) && c.visible)).map
          (commentBlock ctx)).flatten
    ∧ (discussion_loop ctx id l).2
      = (l.filter (fun c => decide (c.changeset_id = id) && c.visible
          && (ctx.users.lookup c.author_id).isNone)).map
          (fun c => (⟨c.author_id, c.changeset_id⟩ : Diag))
    ∧ ∀ c : changeset_comment, ctx.users.lookup c.author_id = none →
        commentBlock ctx c = [] :=
  ⟨(discussion_loop_spec ctx id l).1, (discussion_loop_spec ctx id l).2,
   fun c h => by simp [commentBlock, h]⟩

/-- Witness for C9 at the concrete orphan comment (author 99 unresolvable):
the loop yields no events and exactly one diagnostic. -/
theorem comment_author_skip_spec_witness :
    exCtxFull.users.lookup exComOrphan.author_id = none
    ∧ (discussion_loop exCtxFull 5 [exComOrphan]).1
        = (([exComOrphan].filter (fun c => decide (c.changeset_id = 5) && c.visible)).map
            (commentBlock exCtxFull)).flatten
    ∧ (discussion_loop exCtxFull 5 [exComOrphan]).1 = []
    ∧ (discussion_loop exCtxFull 5 [exComOrphan]).2 = [⟨99, 5⟩] :=
  ⟨by decide, (comment_author_skip_spec exCtxFull 5 [exComOrphan]).1,
   by decide, by decide⟩

/-- C7: on a comment sequence sorted by changeset id, the bounded lookahead
count equals the number of visible comments of this changeset in the whole
remaining sequence; that count is what the `comments_count` attribute
carries; and when discussion inclusion is enabled and the count is
positive, the serialization step wraps, after the changeset attributes and
tags, a `discussion` element whose content is exactly one comment block
per visible matching comment — containing one `comment` element per such
comment whose author resolves in the user table. -/
theorem changeset_comments_spec (ctx : Ctx) (cmap : List (Int × Int))
    (tags : List current_tag) (ccs : List changeset_comment) (cs : changeset)
    (hs : ccs.Pairwise (fun a b => a.changeset_id ≤ b.changeset_id)) :
    comment_count cs.id ccs
      = (ccs.filter (fun c => decide (c.changeset_id = cs.id) && c.visible)).length
    ∧ attrInt "comments_count" (comment_count cs.id ccs : Int)
        ∈ (cs_step ctx cmap tags ccs cs).events
    ∧ (ctx.cd = changeset_discussions.FULL ∧ 0 < comment_count cs.id ccs →
        (cs_step ctx cmap tags ccs cs).events
          = [.beginEl "changeset"] ++ cs_attr_events ctx ccs cs
            ++ (write_cs_tags cs.id tags).1
            ++ [.beginEl "discussion"]
            ++ (((csLookahead cs.id ccs).filter
                  (fun c => decide (c.changeset_id = cs.id) && c.visible)).map
                  (commentBlock ctx)).flatten
            ++ [.endEl, .endEl]
        ∧ ((((csLookahead cs.id ccs).filter
              (fun c => decide (c.changeset_id = cs.id) && c.visible)).map
              (commentBlock ctx)).flatten).count (XmlEvent.beginEl "comment")
            = (ccs.filter (fun c => decide (c.changeset_id = cs.id) && c.visible
                && (ctx.users.lookup c.author_id).isSome)).length) := by
  have hlk : ∀ p : changeset_comment → Bool, (∀ c, p c = true → c.changeset_id = cs.id) →
      (csLookahead cs.id ccs).filter p = ccs.filter p :=
    fun p hp => sorted_lookahead_filter cs.id p hp ccs hs
  have hcount : comment_count cs.id ccs
      = (ccs.filter (fun c => decide (c.changeset_id = cs.id) && c.visible)).length := by
    unfold comment_count
    rw [hlk _ (by intro c hc; simp at hc; exact hc.1)]
  refine ⟨hcount, by simp [cs_step, cs_attr_events], ?_⟩
  rintro ⟨hcd, hcnt⟩
  constructor
  · have hon : (0 < comment_count cs.id ccs ∧ ctx.cd = changeset_discussions.FULL) :=
      ⟨hcnt, hcd⟩
    simp [cs_step, hon, (discussion_loop_spec ctx cs.id (csLookahead cs.id ccs)).1,
      List.append_assoc]
  · rw [discussion_events_count, List.filter_filter]
    rw [hlk _ (by intro c hc; simp at hc; exact hc.2.1)]
    congr 1
    apply List.filter_congr
    intro c _
    cases h1 : decide (c.changeset_id = cs.id) <;>
      cases h2 : c.visible <;>
        cases h3 : (ctx.users.lookup c.author_id).isSome <;> simp [h1, h2, h3]

/-- Witness for C7: the end-to-end example — changeset 5 with two tags, one
visible and one invisible comment, FULL redaction, discussions enabled —
instantiating the theorem and checking `comments_count="1"` and exactly
one `comment` element (and one `discussion` element) in the emitted step. -/
theorem changeset_comments_spec_witness :
    ([exComVisible, exComInvisible] :
        List changeset_comment).Pairwise (fun a b => a.changeset_id ≤ b.changeset_id)
    ∧ comment_count exChangeset5.id [exComVisible, exComInvisible]
        = (([exComVisible, exComInvisible]).filter
            (fun c => decide (c.changeset_id = exChangeset5.id) && c.visible)).length
    ∧ XmlEvent.attrE "comments_count" (strBytes "1")
        ∈ (cs_step exCtxFull [] exTags5 [exComVisible, exComInvisible] exChangeset5).events
    ∧ ((cs_step exCtxFull [] exTags5 [exComVisible, exComInvisible]
        exChangeset5).events).count (XmlEvent.beginEl "comment") = 1
    ∧ ((cs_step exCtxFull [] exTags5 [exComVisible, exComInvisible]
        exChangeset5).events).count (XmlEvent.beginEl "discussion") = 1 := by
  have h := changeset_comments_spec exCtxFull [] exTags5
    [exComVisible, exComInvisible] exChangeset5 (by decide)
  exact ⟨by decide, h.1, by decide, by decide, by decide⟩

/-! ## Author attribution through the changeset map (C10) -/

/-- A successful association-list lookup comes from a member pair. -/
lemma lookup_some_mem {k v : Int} : ∀ m : List (Int × Int),
    m.lookup k = some v → (k, v) ∈ m := by
  intro m
  induction m with
  | nil => simp [List.lookup]
  | cons p rest ih =>
    obtain ⟨a, b⟩ := p
    intro h
    rw [List.lookup] at h
    cases hk : (k == a) with
    | true =>
      simp only [hk] at h
      have h1 : k = a := by simpa using hk
      have h2 : b = v := by simpa using h
      subst h1
      subst h2
      exact List.mem_cons_self _ _
    | false =>
      simp only [hk] at h
      exact List.mem_cons_of_mem _ (ih h)

/-- Lookup after appending a single binding at the end. -/
lemma lookup_append_single (k k' v : Int) : ∀ m : List (Int × Int),
    ((m ++ [(k, v)]).lookup k').isSome
      = ((m.lookup k').isSome || (k' == k)) := by
  intro m
  induction m with
  | nil =>
    rw [List.nil_append, List.lookup]
    cases hk : (k' == k) with
    | true =>
      have h1 : k' = k := by simpa using hk
      simp [hk, h1]
    | false =>
      have h1 : ¬k' = k := by simpa using hk
      simp [hk, h1]
  | cons p rest ih =>
    rw [List.cons_append, List.lookup, List.lookup]
    cases hk : (k' == p.1) <;> simp [hk, ih]

/-- Lookup through `mapInsert`: the key set gains (at most) the new key. -/
lemma mapInsert_lookup (k v k' : Int) (m : List (Int × Int)) :
    ((mapInsert k v m).lookup k').isSome = true
      ↔ ((m.lookup k').isSome = true ∨ k' = k) := by
  unfold mapInsert
  split
  · constructor
    · exact fun h => Or.inl h
    · rintro (h | rfl)
      · exact h
      · assumption
  · rw [lookup_append_single]
    simp

/-- The `cmap` field computed by one changeset step. -/
lemma cs_step_cmap (ctx : Ctx) (cmap : List (Int × Int)) (tags : List current_tag)
    (ccs : List changeset_comment) (cs : changeset) :
    (cs_step ctx cmap tags ccs cs).cmap
      = match (if ctx.uil = user_info_level.FULL then ctx.users.lookup cs.uid
               else none) with
        | some _ => mapInsert cs.id cs.uid cmap
        | none => cmap := rfl

/-- Key set of the changeset→author map after the pass: exactly the keys
already present plus — under FULL redaction — the ids of the serialized
changesets whose author resolves in the user table. -/
lemma changesets_pass_cmap_lookup (ctx : Ctx) : ∀ (css : List changeset)
    (cmap : List (Int × Int)) (tags : List current_tag)
    (ccs : List changeset_comment) (k : Int),
    (((changesets_pass ctx cmap tags ccs css).cmap).lookup k).isSome = true
    ↔ ((cmap.lookup k).isSome = true
        ∨ (ctx.uil = user_info_level.FULL
            ∧ ∃ cs ∈ css, cs.id = k ∧ (ctx.users.lookup cs.uid).isSome = true)) := by
  intro css
  induction css with
  | nil => simp [changesets_pass]
  | cons cs rest ih =>
    intro cmap tags ccs k
    show (((changesets_pass ctx _ _ _ rest).cmap).lookup k).isSome = true ↔ _
    rw [ih]
    by_cases hu : ctx.uil = user_info_level.FULL
    · cases hl : ctx.users.lookup cs.uid with
      | none =>
        rw [cs_step_cmap, if_pos hu, hl]
        simp only [List.mem_cons]
        constructor
        · rintro (h | ⟨hf, cs', hm, hk, hs⟩)
          · exact Or.inl h
          · exact Or.inr ⟨hf, cs', Or.inr hm, hk, hs⟩
        · rintro (h | ⟨hf, cs', (rfl | hm), hk, hs⟩)
          · exact Or.inl h
          · rw [hl] at hs; simp at hs
          · exact Or.inr ⟨hf, cs', hm, hk, hs⟩
      | some name =>
        rw [cs_step_cmap, if_pos hu, hl, mapInsert_lookup]
        simp only [List.mem_cons]
        constructor
        · rintro ((h | rfl) | ⟨hf, cs', hm, hk, hs⟩)
          · exact Or.inl h
          · exact Or.inr ⟨hu, cs, Or.inl rfl, rfl, by rw [hl]; rfl⟩
          · exact Or.inr ⟨hf, cs', Or.inr hm, hk, hs⟩
        · rintro (h | ⟨hf, cs', (rfl | hm), hk, hs⟩)
          · exact Or.inl (Or.inl h)
          · exact Or.inl (Or.inr hk.symm)
          · exact Or.inr ⟨hf, cs', hm, hk, hs⟩
    · rw [cs_step_cmap, if_neg hu]
      simp [hu]

/-- Every author id stored in the map resolves in the user table (the pass
only inserts ids it just found there). -/
lemma changesets_pass_cmap_values (ctx : Ctx) : ∀ (css : List changeset)
    (cmap : List (Int × Int)) (tags : List current_tag)
    (ccs : List changeset_comment),
    (∀ q ∈ cmap, (ctx.users.lookup q.2).isSome = true) →
    ∀ q ∈ (changesets_pass ctx cmap tags ccs css).cmap,
      (ctx.users.lookup q.2).isSome = true := by
  intro css
  induction css with
  | nil => intro cmap tags ccs h; simpa [changesets_pass] using h
  | cons cs rest ih =>
    intro cmap tags ccs h
    apply ih
    rw [cs_step_cmap]
    cases hl0 : (if ctx.uil = user_info_level.FULL then ctx.users.lookup cs.uid
                 else none) with
    | none => exact h
    | some name =>
      intro q hq
      unfold mapInsert at hq
      by_cases hc : (cmap.lookup cs.id).isSome = true
      · rw [if_pos hc] at hq
        exact h q hq
      · rw [if_neg hc] at hq
        rcases List.mem_append.1 hq with hq | hq
        · exact h q hq
        · have hq2 : q = (cs.id, cs.uid) := by simpa using hq
          rw [hq2]
          have hsome : ctx.users.lookup cs.uid = some name := by
            by_cases hu : ctx.uil = user_info_level.FULL
            · rwa [if_pos hu] at hl0
            · rw [if_neg hu] at hl0; cases hl0
          simp [hsome]

/-- Attribute names of `write_common_attributes`: the fixed four, or
`user`/`uid` — the latter only under FULL redaction with the changeset id
present in the map. -/
lemma write_common_attributes_names {ctx : Ctx} {cmap : List (Int × Int)}
    {ts : PTime} {v cid : Int} {vis : Bool} {nm : String} {val : Bytes}
    (h : XmlEvent.attrE nm val ∈ write_common_attributes ctx cmap ts v cid vis) :
    nm = "timestamp" ∨ nm = "version" ∨ nm = "changeset" ∨ nm = "visible"
    ∨ ((nm = "user" ∨ nm = "uid") ∧ ctx.uil = user_info_level.FULL
        ∧ (cmap.lookup cid).isSome = true) := by
  unfold write_common_attributes at h
  rcases List.mem_append.1 h with h | h
  · rcases List.mem_append.1 h with h | h
    · simp [attrTime, attrInt] at h
      tauto
    · split at h
      · simp [attrBool] at h
        tauto
      · simp at h
  · split at h
    case h_1 uid heq =>
      by_cases hu : ctx.uil = user_info_level.FULL
      · rw [if_pos hu] at heq
        refine Or.inr (Or.inr (Or.inr (Or.inr ⟨?_, hu, ?_⟩)))
        · split at h
          · simp [attrStr, attrInt] at h
            tauto
          · simp at h
        · rw [heq]; rfl
      · rw [if_neg hu] at heq
        cases heq
    case h_2 heq => simp at h

/-- The `user`/`uid` pair of `write_common_attributes` is emitted exactly
when the redaction policy is FULL and the record's changeset id is a key
of the map — provided every author id the map stores resolves in the user
table (which the changeset pass guarantees). -/
lemma write_common_attributes_user_uid (ctx : Ctx) (cmap : List (Int × Int))
    (ts : PTime) (v cid : Int) (vis : Bool)
    (hval : ∀ q ∈ cmap, (ctx.users.lookup q.2).isSome = true) :
    ((∃ val, XmlEvent.attrE "user" val
        ∈ write_common_attributes ctx cmap ts v cid vis)
      ↔ (ctx.uil = user_info_level.FULL ∧ (cmap.lookup cid).isSome = true))
    ∧ ((∃ val, XmlEvent.attrE "uid" val
        ∈ write_common_attributes ctx cmap ts v cid vis)
      ↔ (ctx.uil = user_info_level.FULL ∧ (cmap.lookup cid).isSome = true)) := by
  have hfwd : ∀ val nm, nm = "user" ∨ nm = "uid" →
      XmlEvent.attrE nm val ∈ write_common_attributes ctx cmap ts v cid vis →
      ctx.uil = user_info_level.FULL ∧ (cmap.lookup cid).isSome = true := by
    intro val nm hnm h
    rcases write_common_attributes_names h with h1 | h1 | h1 | h1 | h1
    all_goals first
      | (exact h1.2)
      | (rcases hnm with rfl | rfl <;> simp at h1)
  have hbwd : ctx.uil = user_info_level.FULL → (cmap.lookup cid).isSome = true →
      (∃ val, XmlEvent.attrE "user" val
        ∈ write_common_attributes ctx cmap ts v cid vis)
      ∧ (∃ val, XmlEvent.attrE "uid" val
        ∈ write_common_attributes ctx cmap ts v cid vis) := by
    intro hu hk
    cases hl : cmap.lookup cid with
    | none => rw [hl] at hk; cases hk
    | some uid =>
      have hmem := lookup_some_mem cmap hl
      have husers := hval _ hmem
      cases hul : ctx.users.lookup uid with
      | none => rw [hul] at husers; cases husers
      | some name =>
        constructor
        · exact ⟨cString (replace_xml_bad_chars name),
            by simp [write_common_attributes, hu, hl, hul, attrStr]⟩
        · exact ⟨decBytes uid,
            by simp [write_common_attributes, hu, hl, hul, attrInt]⟩
  constructor
  · constructor
    · rintro ⟨val, hv⟩
      exact hfwd val "user" (Or.inl rfl) hv
    · rintro ⟨hu, hk⟩
      exact (hbwd hu hk).1
  · constructor
    · rintro ⟨val, hv⟩
      exact hfwd val "uid" (Or.inr rfl) hv
    · rintro ⟨hu, hk⟩
      exact (hbwd hu hk).2

/-- A `user` or `uid` attribute on the changeset element itself can only
come from a successful author lookup under FULL redaction. -/
lemma cs_attr_events_user_source {ctx : Ctx} {ccs : List changeset_comment}
    {cs : changeset} {nm : String} {val : Bytes}
    (h : XmlEvent.attrE nm val ∈ cs_attr_events ctx ccs cs)
    (hnm : nm = "user" ∨ nm = "uid") :
    ∃ name, (if ctx.uil = user_info_level.FULL then ctx.users.lookup cs.uid
             else none) = some name := by
  unfold cs_attr_events at h
  rcases List.mem_append.1 h with h | h
  · rcases List.mem_append.1 h with h | h
    · rcases List.mem_append.1 h with h | h
      · rcases List.mem_append.1 h with h | h
        · rcases List.mem_append.1 h with h | h
          · rcases hnm with rfl | rfl <;> simp [attrInt, attrTime] at h
          · split at h <;> (rcases hnm with rfl | rfl <;> simp [attrTime] at h)
        · rcases hnm with rfl | rfl <;> simp [attrBool] at h
      · split at h
        case h_1 name heq => exact ⟨name, heq⟩
        case h_2 heq => simp at h
    · rcases hnm with rfl | rfl <;>
        (rcases bbox_events_attr h with h1 | h1 | h1 | h1 <;> simp at h1)
  · rcases hnm with rfl | rfl <;> simp [attrInt] at h

/-- C10: after the changeset pass (started with an empty map), (a) the map
keys are exactly the serialized changesets whose author resolved in the
user table under FULL redaction, (b) a node/way/relation's common
attributes carry `user`/`uid` exactly when the policy is FULL and its
changeset id is a key of that map, and (c) a changeset whose author does
not resolve gets no `user`/`uid` attribute on its own element even under
FULL redaction. -/
theorem author_attribution_spec (ctx : Ctx) (tags : List current_tag)
    (ccs : List changeset_comment) (css : List changeset) :
    (∀ k, (((changesets_pass ctx [] tags ccs css).cmap).lookup k).isSome = true
      ↔ (ctx.uil = user_info_level.FULL
          ∧ ∃ cs ∈ css, cs.id = k ∧ (ctx.users.lookup cs.uid).isSome = true))
    ∧ (∀ (ts : PTime) (v cid : Int) (vis : Bool),
        ((∃ val, XmlEvent.attrE "user" val ∈ write_common_attributes ctx
            (changesets_pass ctx [] tags ccs css).cmap ts v cid vis)
          ↔ (ctx.uil = user_info_level.FULL
              ∧ (((changesets_pass ctx [] tags ccs css).cmap).lookup cid).isSome = true))
        ∧ ((∃ val, XmlEvent.attrE "uid" val ∈ write_common_attributes ctx
            (changesets_pass ctx [] tags ccs css).cmap ts v cid vis)
          ↔ (ctx.uil = user_info_level.FULL
              ∧ (((changesets_pass ctx [] tags ccs css).cmap).lookup cid).isSome = true)))
    ∧ (∀ (cs : changeset) (val : Bytes), ctx.users.lookup cs.uid = none →
        XmlEvent.attrE "user" val ∉ cs_attr_events ctx ccs cs
        ∧ XmlEvent.attrE "uid" val ∉ cs_attr_events ctx ccs cs) := by
  have hval : ∀ q ∈ (changesets_pass ctx [] tags ccs css).cmap,
      (ctx.users.lookup q.2).isSome = true :=
    changesets_pass_cmap_values ctx css [] tags ccs (by simp)
  refine ⟨?_, ?_, ?_⟩
  · intro k
    rw [changesets_pass_cmap_lookup]
    simp [List.lookup]
  · intro ts v cid vis
    exact write_common_attributes_user_uid ctx _ ts v cid vis hval
  · intro cs val hnone
    constructor
    · intro hmem
      rcases cs_attr_events_user_source hmem (Or.inl rfl) with ⟨name, heq⟩
      by_cases hu : ctx.uil = user_info_level.FULL
      · rw [if_pos hu, hnone] at heq; cases heq
      · rw [if_neg hu] at heq; cases heq
    · intro hmem
      rcases cs_attr_events_user_source hmem (Or.inr rfl) with ⟨name, heq⟩
      by_cases hu : ctx.uil = user_info_level.FULL
      · rw [if_pos hu, hnone] at heq; cases heq
      · rw [if_neg hu] at heq; cases heq

/-- Witness for C10: serializing changeset 5 (author 7, resolvable) and
changeset 6 (author 99, unresolvable) under FULL redaction puts exactly
key 5 into the map — changeset 6 stays out, so records referencing it get
no `user`/`uid`. -/
theorem author_attribution_spec_witness :
    ((((changesets_pass exCtxFull [] [] [] [exChangeset5, exCsNoAuthor]).cmap).lookup
        5).isSome = true
      ↔ (exCtxFull.uil = user_info_level.FULL
          ∧ ∃ cs ∈ [exChangeset5, exCsNoAuthor], cs.id = 5
              ∧ (exCtxFull.users.lookup cs.uid).isSome = true))
    ∧ (((changesets_pass exCtxFull [] [] [] [exChangeset5, exCsNoAuthor]).cmap).lookup
        5).isSome = true
    ∧ (((changesets_pass exCtxFull [] [] [] [exChangeset5, exCsNoAuthor]).cmap).lookup
        6).isSome = false :=
  ⟨(author_attribution_spec exCtxFull [] [] [exChangeset5, exCsNoAuthor]).1 5,
   by decide, by decide⟩

/-! ## SUMMARY redaction (C2) -/

lemma noUU_nil : noUserUid [] := by intro val; simp

lemma noUU_append {a b : List XmlEvent} (ha : noUserUid a) (hb : noUserUid b) :
    noUserUid (a ++ b) := by
  intro val
  refine ⟨fun h => ?_, fun h => ?_⟩
  · rcases List.mem_append.1 h with h | h
    · exact (ha val).1 h
    · exact (hb val).1 h
  · rcases List.mem_append.1 h with h | h
    · exact (ha val).2 h
    · exact (hb val).2 h

lemma noUU_flatten : ∀ L : List (List XmlEvent), (∀ x ∈ L, noUserUid x) →
    noUserUid L.flatten := by
  intro L
  induction L with
  | nil => intro _; exact noUU_nil
  | cons x rest ih =>
    intro h
    rw [List.flatten_cons]
    exact noUU_append (h x (List.mem_cons_self _ _))
      (ih fun y hy => h y (List.mem_cons_of_mem _ hy))

lemma noUU_header (k : osm_consts) (now : PTime) : noUserUid (header_events k now) := by
  intro val
  simp [header_events, attrStr, attrTime]

lemma noUU_tag_events (key v : Bytes) : noUserUid (add_tag_events key v) := by
  intro val
  simp [add_tag_events, attrStr]

lemma noUU_write_tags (id ver : Int) : ∀ ts, noUserUid (write_tags id ver ts).1 := by
  intro ts
  induction ts with
  | nil => exact noUU_nil
  | cons t rest ih =>
    by_cases hg : t.element_id < id ∨ (t.element_id = id ∧ t.version ≤ ver)
    · rw [write_tags, if_pos hg]
      by_cases hm : t.element_id = id ∧ t.version = ver
      · rw [if_pos hm]
        exact noUU_append (noUU_tag_events _ _) ih
      · rw [if_neg hm]
        exact noUU_append noUU_nil ih
    · rw [write_tags, if_neg hg]
      exact noUU_nil

lemma noUU_write_cs_tags (id : Int) : ∀ ts, noUserUid (write_cs_tags id ts).1 := by
  intro ts
  induction ts with
  | nil => exact noUU_nil
  | cons t rest ih =>
    by_cases hg : t.element_id ≤ id
    · rw [write_cs_tags, if_pos hg]
      by_cases hm : t.element_id = id
      · rw [if_pos hm]
        exact noUU_append (noUU_tag_events _ _) ih
      · rw [if_neg hm]
        exact noUU_append noUU_nil ih
    · rw [write_cs_tags, if_neg hg]
      exact noUU_nil

lemma noUU_write_way_nodes (id ver : Int) : ∀ wns,
    noUserUid (write_way_nodes id ver wns).1 := by
  intro wns
  induction wns with
  | nil => exact noUU_nil
  | cons wn rest ih =>
    by_cases hg : wn.way_id < id ∨ (wn.way_id = id ∧ wn.version ≤ ver)
    · rw [write_way_nodes, if_pos hg]
      refine noUU_append ?_ ih
      by_cases hm : wn.way_id = id ∧ wn.version = ver
      · rw [if_pos hm]
        intro val
        simp [attrInt]
      · rw [if_neg hm]
        exact noUU_nil
    · rw [write_way_nodes, if_neg hg]
      exact noUU_nil

lemma noUU_member_events (m : relation_member) : noUserUid (member_events m) := by
  intro val
  simp [member_events, attrStr, attrInt]

lemma noUU_write_members (id ver : Int) : ∀ rms,
    noUserUid (write_members id ver rms).1 := by
  intro rms
  induction rms with
  | nil => exact noUU_nil
  | cons rm rest ih =>
    by_cases hg : rm.relation_id < id ∨ (rm.relation_id = id ∧ rm.version ≤ ver)
    · rw [write_members, if_pos hg]
      refine noUU_append ?_ ih
      by_cases hm : rm.relation_id = id ∧ rm.version = ver
      · rw [if_pos hm]
        exact noUU_member_events rm
      · rw [if_neg hm]
        exact noUU_nil
    · rw [write_members, if_neg hg]
      exact noUU_nil

lemma noUU_common {ctx : Ctx} (huil : ctx.uil = user_info_level.SUMMARY)
    (cmap : List (Int × Int)) (ts : PTime) (v cid : Int) (vis : Bool) :
    noUserUid (write_common_attributes ctx cmap ts v cid vis) := by
  intro val
  refine ⟨fun h => ?_, fun h => ?_⟩ <;>
  · rcases write_common_attributes_names h with h1 | h1 | h1 | h1 | ⟨_, hfull, _⟩
    · simp at h1
    · simp at h1
    · simp at h1
    · simp at h1
    · rw [huil] at hfull; cases hfull

lemma noUU_cs_attr {ctx : Ctx} (huil : ctx.uil = user_info_level.SUMMARY)
    (ccs : List changeset_comment) (cs : changeset) :
    noUserUid (cs_attr_events ctx ccs cs) := by
  have hnf : ¬ ctx.uil = user_info_level.FULL := by
    rw [huil]
    intro hh
    cases hh
  intro val
  refine ⟨fun h => ?_, fun h => ?_⟩
  · rcases cs_attr_events_user_source h (Or.inl rfl) with ⟨name, heq⟩
    rw [if_neg hnf] at heq
    cases heq
  · rcases cs_attr_events_user_source h (Or.inr rfl) with ⟨name, heq⟩
    rw [if_neg hnf] at heq
    cases heq

lemma noUU_add_comment {ctx : Ctx} (huil : ctx.uil = user_info_level.SUMMARY)
    (c : changeset_comment) (name : Bytes) :
    noUserUid (add_comment_events ctx.uil c name) := by
  intro val
  simp [add_comment_events, huil, attrTime, textEv]

lemma noUU_discussion_loop {ctx : Ctx} (huil : ctx.uil = user_info_level.SUMMARY)
    (id : Int) (l : List changeset_comment) :
    noUserUid (discussion_loop ctx id l).1 := by
  rw [(discussion_loop_spec ctx id l).1]
  apply noUU_flatten
  intro x hx
  rcases List.mem_map.1 hx with ⟨c, _, rfl⟩
  unfold commentBlock
  cases hl : ctx.users.lookup c.author_id with
  | none => exact noUU_nil
  | some name => exact noUU_add_comment huil c name

lemma noUU_cs_step {ctx : Ctx} (huil : ctx.uil = user_info_level.SUMMARY)
    (cmap : List (Int × Int)) (tags : List current_tag)
    (ccs : List changeset_comment) (cs : changeset) :
    noUserUid (cs_step ctx cmap tags ccs cs).events := by
  have hbe : noUserUid [XmlEvent.beginEl "changeset"] := by intro val; simp
  have hee : noUserUid [XmlEvent.endEl] := by intro val; simp
  refine noUU_append (noUU_append (noUU_append (noUU_append hbe
    (noUU_cs_attr huil ccs cs)) (noUU_write_cs_tags cs.id tags)) ?_) hee
  by_cases hon : 0 < comment_count cs.id ccs ∧ ctx.cd = changeset_discussions.FULL
  · show noUserUid (if _ then _ else _)
    rw [if_pos hon]
    refine noUU_append (noUU_append (by intro val; simp)
      (noUU_discussion_loop huil cs.id _)) hee
  · show noUserUid (if _ then _ else _)
    rw [if_neg hon]
    exact noUU_nil

lemma noUU_changesets_pass {ctx : Ctx} (huil : ctx.uil = user_info_level.SUMMARY) :
    ∀ (css : List changeset) (cmap : List (Int × Int)) (tags : List current_tag)
      (ccs : List changeset_comment),
    noUserUid (changesets_pass ctx cmap tags ccs css).events := by
  intro css
  induction css with
  | nil => intro cmap tags ccs; exact noUU_nil
  | cons cs rest ih =>
    intro cmap tags ccs
    exact noUU_append (noUU_cs_step huil cmap tags ccs cs) (ih _ _ _)

lemma noUU_node_step {ctx : Ctx} (huil : ctx.uil = user_info_level.SUMMARY)
    (cmap : List (Int × Int)) (n : node) (tags : List old_tag) :
    noUserUid (node_step ctx cmap n tags).1 := by
  have hhd : noUserUid [XmlEvent.beginEl "node", attrInt "id" n.id] := by
    intro val
    simp [attrInt]
  have hgeo : noUserUid (if n.visible then
      [attrDouble "lat" (coordDouble n.latitude),
       attrDouble "lon" (coordDouble n.longitude)] else []) := by
    by_cases hv : n.visible = true
    · rw [if_pos hv]
      intro val
      simp [attrDouble]
    · rw [if_neg hv]
      exact noUU_nil
  have htags : noUserUid (if n.visible then write_tags n.id n.version tags
      else ([], tags)).1 := by
    by_cases hv : n.visible = true
    · rw [if_pos hv]
      exact noUU_write_tags n.id n.version tags
    · rw [if_neg hv]
      exact noUU_nil
  exact noUU_append (noUU_append (noUU_append (noUU_append hhd hgeo)
    (noUU_common huil cmap n.timestamp n.version n.changeset_id n.visible)) htags)
    (by intro val; simp)

lemma noUU_nodes_pass {ctx : Ctx} (huil : ctx.uil = user_info_level.SUMMARY)
    (cmap : List (Int × Int)) : ∀ (ns : List node) (tags : List old_tag),
    noUserUid (nodes_pass ctx cmap ns tags).1 := by
  intro ns
  induction ns with
  | nil => intro tags; exact noUU_nil
  | cons n rest ih =>
    intro tags
    exact noUU_append (noUU_node_step huil cmap n tags) (ih _)

lemma noUU_way_step {ctx : Ctx} (huil : ctx.uil = user_info_level.SUMMARY)
    (cmap : List (Int × Int)) (w : way) (wns : List way_node) (tags : List old_tag) :
    noUserUid (way_step ctx cmap w wns tags).1 := by
  have hnds : noUserUid (if w.visible then write_way_nodes w.id w.version wns
      else ([], wns)).1 := by
    by_cases hv : w.visible = true
    · rw [if_pos hv]; exact noUU_write_way_nodes w.id w.version wns
    · rw [if_neg hv]; exact noUU_nil
  have htags : noUserUid (if w.visible then write_tags w.id w.version tags
      else ([], tags)).1 := by
    by_cases hv : w.visible = true
    · rw [if_pos hv]; exact noUU_write_tags w.id w.version tags
    · rw [if_neg hv]; exact noUU_nil
  exact noUU_append (noUU_append (noUU_append (noUU_append
    (by intro val; simp [attrInt])
    (noUU_common huil cmap w.timestamp w.version w.changeset_id w.visible)) hnds)
    htags) (by intro val; simp)

lemma noUU_ways_pass {ctx : Ctx} (huil : ctx.uil = user_info_level.SUMMARY)
    (cmap : List (Int × Int)) : ∀ (ws : List way) (wns : List way_node)
    (tags : List old_tag), noUserUid (ways_pass ctx cmap ws wns tags).1 := by
  intro ws
  induction ws with
  | nil => intro wns tags; exact noUU_nil
  | cons w rest ih =>
    intro wns tags
    exact noUU_append (noUU_way_step huil cmap w wns tags) (ih _ _)

lemma noUU_relation_step {ctx : Ctx} (huil : ctx.uil = user_info_level.SUMMARY)
    (cmap : List (Int × Int)) (r : relation) (rms : List relation_member)
    (tags : List old_tag) :
    noUserUid (relation_step ctx cmap r rms tags).1 := by
  have hms : noUserUid (if r.visible then write_members r.id r.version rms
      else ([], rms)).1 := by
    by_cases hv : r.visible = true
    · rw [if_pos hv]; exact noUU_write_members r.id r.version rms
    · rw [if_neg hv]; exact noUU_nil
  have htags : noUserUid (if r.visible then write_tags r.id r.version tags
      else ([], tags)).1 := by
    by_cases hv : r.visible = true
    · rw [if_pos hv]; exact noUU_write_tags r.id r.version tags
    · rw [if_neg hv]; exact noUU_nil
  exact noUU_append (noUU_append (noUU_append (noUU_append
    (by intro val; simp [attrInt])
    (noUU_common huil cmap r.timestamp r.version r.changeset_id r.visible)) hms)
    htags) (by intro val; simp)

lemma noUU_relations_pass {ctx : Ctx} (huil : ctx.uil = user_info_level.SUMMARY)
    (cmap : List (Int × Int)) : ∀ (rs : List relation) (rms : List relation_member)
    (tags : List old_tag), noUserUid (relations_pass ctx cmap rs rms tags).1 := by
  intro rs
  induction rs with
  | nil => intro rms tags; exact noUU_nil
  | cons r rest ih =>
    intro rms tags
    exact noUU_append (noUU_relation_step huil cmap r rms tags) (ih _ _)

/-- C2 (amended): under SUMMARY redaction the whole generated document —
root element, changeset, node, way and relation passes — contains no
`user` attribute and no `uid` attribute, whatever the user table holds. -/
theorem summary_no_user_uid (ctx : Ctx) (k : osm_consts)
    (css : List changeset) (ts : List current_tag) (ccs : List changeset_comment)
    (ns : List node) (nts : List old_tag)
    (ws : List way) (wns : List way_node) (wts : List old_tag)
    (rs : List relation) (rms : List relation_member) (rts : List old_tag)
    (huil : ctx.uil = user_info_level.SUMMARY) :
    noUserUid (document_events ctx k css ts ccs ns nts ws wns wts rs rms rts).1 := by
  show noUserUid (_ ++ _ ++ _ ++ _ ++ _ ++ _)
  exact noUU_append (noUU_append (noUU_append (noUU_append (noUU_append
    (noUU_header k ctx.now) (noUU_changesets_pass huil css [] ts ccs))
    (noUU_nodes_pass huil _ ns nts)) (noUU_ways_pass huil _ ws wns wts))
    (noUU_relations_pass huil _ rs rms rts)) (by intro val; simp)

/-- C2 (counterexample to the claim as stated): a SUMMARY run with
discussions enabled still emits the comment body text, and two SUMMARY
runs that differ only in the user table produce different documents (the
comment of the run with an empty user table is skipped as unresolvable). -/
theorem summary_redaction_counterexample :
    exCtxSummary.uil = user_info_level.SUMMARY
    ∧ XmlEvent.textE (strBytes "hello")
        ∈ (document_events exCtxSummary exConsts [exChangeset5] [] [exComVisible]
            [] [] [] [] [] [] [] []).1
    ∧ (document_events exCtxSummary exConsts [exChangeset5] [] [exComVisible]
        [] [] [] [] [] [] [] []).1
      ≠ (document_events { exCtxSummary with users := [] } exConsts [exChangeset5]
          [] [exComVisible] [] [] [] [] [] [] [] []).1 := by
  decide

/-- Witness for C2 (amended) at a concrete SUMMARY document. -/
theorem summary_no_user_uid_witness :
    exCtxSummary.uil = user_info_level.SUMMARY
    ∧ noUserUid (document_events exCtxSummary exConsts [exChangeset5] [] [exComVisible]
        [] [] [] [] [] [] [] []).1 :=
  ⟨rfl, summary_no_user_uid exCtxSummary exConsts [exChangeset5] [] [exComVisible]
    [] [] [] [] [] [] [] [] rfl⟩

end PlanetDump
